import Mathlib

/-
  Verification of the in-memory LRU/TTL cache engine (`MemoryCache`) and its
  memoizing wrapper (`cached`) against their natural-language specification.

  The engine is embedded shallowly:
  * the JavaScript `Map` (which iterates in insertion order) becomes an
    association list `List (String × α)` with `mapGet` / `mapSet` /
    `mapDelete` / `mapContains` mirroring `Map.prototype` semantics;
  * `Date.now()` becomes an explicit `now : Nat` argument;
  * every operation returns its successor state, its return value, and the
    ordered list of lifecycle-hook invocations it performs (`HookEvent`);
  * `getOrSet`, whose only suspension point is awaiting the fetcher, is split
    at that point into `getOrSetStart` (the synchronous part up to and
    including invoking the fetcher and registering the in-flight promise)
    and `getOrSetSettle` (the continuation that runs when the fetcher's
    promise settles).
-/

set_option maxHeartbeats 1000000

namespace Memcache

/-- A JavaScript value.  `undef` and `null` are first-class members because
the engine treats them specially (sentinel wrapping). -/
inductive JsVal where
  | undef
  | null
  | str (s : String)
  | num (n : Int)
  | boolean (b : Bool)
deriving DecidableEq, Repr

/-- A raw value held in the internal map.  The source stores the sentinels
`CACHED_UNDEFINED` / `CACHED_NULL` in place of a cached `undefined` / `null`
so that "no entry" can be told apart from "entry whose value is undefined". -/
inductive Stored where
  | cachedUndefined
  | cachedNull
  | plain (v : JsVal)
deriving DecidableEq, Repr

/-- The wrapping performed by `MemoryCache.set`:
`value === undefined ? CACHED_UNDEFINED : value === null ? CACHED_NULL : value`. -/
def wrapValue (v : JsVal) : Stored :=
  match v with
  | JsVal.undef => Stored.cachedUndefined
  | JsVal.null => Stored.cachedNull
  | v => Stored.plain v

/-- `MemoryCache.unwrapValue`: sentinels are turned back into
`undefined` / `null`. -/
def unwrapValue (s : Stored) : JsVal :=
  match s with
  | Stored.cachedUndefined => JsVal.undef
  | Stored.cachedNull => JsVal.null
  | Stored.plain v => v

/-- `Map.prototype.get`: the value of the first (and, for genuine `Map`
states, only) binding of `k`. -/
def mapGet (m : List (String × α)) (k : String) : Option α :=
  (m.find? (fun p => p.1 == k)).map (fun p => p.2)

/-- `Map.prototype.has`. -/
def mapContains (m : List (String × α)) (k : String) : Bool :=
  m.any (fun p => p.1 == k)

/-- `Map.prototype.delete` (the state part; the returned boolean is
`mapContains m k`). -/
def mapDelete (m : List (String × α)) (k : String) : List (String × α) :=
  m.filter (fun p => !(p.1 == k))

/-- `Map.prototype.set`: overwrites in place when the key exists (iteration
position is kept), appends at the end otherwise. -/
def mapSet (m : List (String × α)) (k : String) (v : α) : List (String × α) :=
  if mapContains m k then
    m.map (fun p => if p.1 == k then (k, v) else p)
  else
    m ++ [(k, v)]

/-- Internal representation of one cached entry (`CacheEntry` in the source). -/
structure CacheEntry where
  value : Stored
  timestamp : Nat
deriving DecidableEq, Repr

/-- The constructor-validated configuration: `maxSize` (0 = unlimited) and
`ttl` in milliseconds (0 = never expires). -/
structure Config where
  maxSize : Nat
  ttl : Nat
deriving DecidableEq, Repr

/-- The `reason` field of an `onMiss` context. -/
inductive MissReason where
  | notFound
  | expired
deriving DecidableEq, Repr

/-- The `source` field of an `onExpire` context. -/
inductive ExpireSource where
  | get
  | has
  | prune
deriving DecidableEq, Repr

/-- The `source` field of an `onDelete` context. -/
inductive DeleteSource where
  | delete
  | deleteAsync
  | deleteByPrefix
  | deleteByMagicString
  | clear
deriving DecidableEq, Repr

/-- One lifecycle-hook invocation, together with the context object the
engine passes to it. -/
inductive HookEvent where
  | onHit (key : String) (value : JsVal)
  | onMiss (key : String) (reason : MissReason)
  | onSet (key : String) (value : JsVal) (isUpdate : Bool)
  | onEvict (key : String) (value : JsVal)
  | onExpire (key : String) (value : JsVal) (source : ExpireSource)
  | onDelete (key : String) (value : JsVal) (source : DeleteSource)
deriving DecidableEq, Repr

/-- The full private state of one `MemoryCache` instance: the ordered entry
store, the in-flight registry of `getOrSet` (key ↦ promise identifier), and
the four statistics counters. -/
structure CacheState where
  cache : List (String × CacheEntry)
  inFlight : List (String × Nat)
  hits : Nat
  misses : Nat
  evictions : Nat
  expirations : Nat
deriving DecidableEq, Repr

/-- The state of a freshly constructed cache. -/
def initialState : CacheState :=
  { cache := [], inFlight := [], hits := 0, misses := 0, evictions := 0, expirations := 0 }

/-- `MemoryCache.get`.  Nat subtraction truncates at zero where JavaScript
would produce a negative number, but inside the guard `0 < cfg.ttl` both
fail the comparison `cfg.ttl < _`, so the branch taken is identical. -/
def MemoryCache.get (cfg : Config) (now : Nat) (σ : CacheState) (key : String) :
    CacheState × JsVal × List HookEvent :=
  match mapGet σ.cache key with
  | none =>
      ({ σ with misses := σ.misses + 1 }, JsVal.undef,
       [HookEvent.onMiss key MissReason.notFound])
  | some entry =>
      if 0 < cfg.ttl ∧ cfg.ttl < now - entry.timestamp then
        ({ σ with cache := mapDelete σ.cache key,
                  expirations := σ.expirations + 1,
                  misses := σ.misses + 1 },
         JsVal.undef,
         [HookEvent.onExpire key (unwrapValue entry.value) ExpireSource.get,
          HookEvent.onMiss key MissReason.expired])
      else
        ({ σ with cache := mapSet (mapDelete σ.cache key) key entry,
                  hits := σ.hits + 1 },
         unwrapValue entry.value,
         [HookEvent.onHit key (unwrapValue entry.value)])

/-- `MemoryCache.has`: same lazy-expiration check as `get`, but no
promotion and no counter changes. -/
def MemoryCache.has (cfg : Config) (now : Nat) (σ : CacheState) (key : String) :
    CacheState × Bool × List HookEvent :=
  match mapGet σ.cache key with
  | none => (σ, false, [])
  | some entry =>
      if 0 < cfg.ttl ∧ cfg.ttl < now - entry.timestamp then
        ({ σ with cache := mapDelete σ.cache key }, false,
         [HookEvent.onExpire key (unwrapValue entry.value) ExpireSource.has])
      else
        (σ, true, [])

/-- `MemoryCache.set`.  Note the faithful rendering of
`if (oldestKey) { ... }`: `oldestKey` is the first key of the map
(`undefined` on an empty map), and JavaScript treats both `undefined` and
the empty string `""` as falsy, so the eviction block is skipped whenever
the oldest key is the empty string. -/
def MemoryCache.set (cfg : Config) (now : Nat) (σ : CacheState) (key : String) (value : JsVal) :
    CacheState × List HookEvent :=
  let isNewKey := !(mapContains σ.cache key)
  let evictStep : CacheState × List HookEvent :=
    if isNewKey ∧ 0 < cfg.maxSize ∧ cfg.maxSize ≤ σ.cache.length then
      match σ.cache.head? with
      | some p =>
          if p.1 == "" then (σ, [])
          else
            let evictedValue :=
              match mapGet σ.cache p.1 with
              | some e => unwrapValue e.value
              | none => JsVal.undef
            ({ σ with cache := mapDelete σ.cache p.1, evictions := σ.evictions + 1 },
             [HookEvent.onEvict p.1 evictedValue])
      | none => (σ, [])
    else (σ, [])
  let σ1 := evictStep.1
  let σ2 := if isNewKey then σ1 else { σ1 with cache := mapDelete σ1.cache key }
  ({ σ2 with cache := mapSet σ2.cache key { value := wrapValue value, timestamp := now } },
   evictStep.2 ++ [HookEvent.onSet key value (!isNewKey)])

/-- `MemoryCache.delete`. -/
def MemoryCache.delete (σ : CacheState) (key : String) :
    CacheState × Bool × List HookEvent :=
  let entry := mapGet σ.cache key
  let deleted := mapContains σ.cache key
  let σ1 := { σ with cache := mapDelete σ.cache key }
  let evs :=
    match entry with
    | some e =>
        if deleted then [HookEvent.onDelete key (unwrapValue e.value) DeleteSource.delete]
        else []
    | none => []
  (σ1, deleted, evs)

/-- `MemoryCache.deleteAsync`: same body as `delete` except that the hook
context carries `source: 'deleteAsync'`; the `Promise.resolve` wrapper is
the identity in this embedding. -/
def MemoryCache.deleteAsync (σ : CacheState) (key : String) :
    CacheState × Bool × List HookEvent :=
  let entry := mapGet σ.cache key
  let deleted := mapContains σ.cache key
  let σ1 := { σ with cache := mapDelete σ.cache key }
  let evs :=
    match entry with
    | some e =>
        if deleted then [HookEvent.onDelete key (unwrapValue e.value) DeleteSource.deleteAsync]
        else []
    | none => []
  (σ1, deleted, evs)

/-- `MemoryCache.clear`: fires `onDelete` (source `clear`) per existing
entry, then empties the store. -/
def MemoryCache.clear (σ : CacheState) : CacheState × List HookEvent :=
  ({ σ with cache := [] },
   σ.cache.map (fun p => HookEvent.onDelete p.1 (unwrapValue p.2.value) DeleteSource.clear))

/-- `MemoryCache.deleteByPrefix`. -/
def MemoryCache.deleteByPrefix (σ : CacheState) (pfx : String) :
    CacheState × Nat × List HookEvent :=
  let removed := σ.cache.filter (fun q => q.1.startsWith pfx)
  ({ σ with cache := σ.cache.filter (fun q => !(q.1.startsWith pfx)) },
   removed.length,
   removed.map (fun q => HookEvent.onDelete q.1 (unwrapValue q.2.value) DeleteSource.deleteByPrefix))

/-- One element of the regular expression that `deleteByMagicString` builds:
the replacement chain first escapes every regex metacharacter
(`.replace(/[.+?^$\x7b\x7d()|[\]\\]/g, '\\$&')` — every special except `*`)
and then rewrites each `*` to `.*`, so the anchored regex
`^...$` is exactly a sequence of literal characters and `.*` gaps. -/
inductive MagicTok where
  | star
  | lit (c : Char)
deriving DecidableEq, Repr

/-- Tokenization of a magic string according to the escaping described at
`MagicTok`. -/
def magicTokens (pattern : String) : List MagicTok :=
  pattern.toList.map (fun c => if c == '*' then MagicTok.star else MagicTok.lit c)

/-- ECMAScript `.` without the `s` flag: any character except the four line
terminators LF, CR, LINE SEPARATOR and PARAGRAPH SEPARATOR. -/
def jsDotMatches (c : Char) : Bool :=
  !(c == '\n' || c == '\r' || c == '\u2028' || c == '\u2029')

/-- A `.*` gap before the rest of the regex: `cont` is the matcher for the
remaining tokens, and the gap may consume any (possibly empty) run of
characters accepted by ECMAScript `.` before handing over to `cont`. -/
def magicStar (cont : List Char → Bool) : List Char → Bool
  | [] => cont []
  | k :: ks => cont (k :: ks) || (jsDotMatches k && magicStar cont ks)

/-- Anchored matching of the regex described at `MagicTok` against a key,
with ECMAScript semantics for `.` (a `.test` call only asks whether some
decomposition matches, so greediness is irrelevant). -/
def magicMatch : List MagicTok → List Char → Bool
  | [], ks => ks.isEmpty
  | MagicTok.lit c :: ps, ks =>
      match ks with
      | [] => false
      | k :: ks' => c == k && magicMatch ps ks'
  | MagicTok.star :: ps, ks => magicStar (fun rest => magicMatch ps rest) ks

/-- `MemoryCache.deleteByMagicString`.  The source iterates the map in
order, deleting matching entries as it goes (safe on a JavaScript `Map`),
which is the same as filtering. -/
def MemoryCache.deleteByMagicString (σ : CacheState) (magicString : String) :
    CacheState × Nat × List HookEvent :=
  let toks := magicTokens magicString
  let removed := σ.cache.filter (fun q => magicMatch toks q.1.toList)
  ({ σ with cache := σ.cache.filter (fun q => !magicMatch toks q.1.toList) },
   removed.length,
   removed.map (fun q =>
     HookEvent.onDelete q.1 (unwrapValue q.2.value) DeleteSource.deleteByMagicString))

/-- `MemoryCache.prune`. -/
def MemoryCache.prune (cfg : Config) (now : Nat) (σ : CacheState) :
    CacheState × Nat × List HookEvent :=
  if cfg.ttl = 0 then (σ, 0, [])
  else
    let expired := σ.cache.filter (fun q => decide (cfg.ttl < now - q.2.timestamp))
    ({ σ with cache := σ.cache.filter (fun q => !decide (cfg.ttl < now - q.2.timestamp)),
              expirations := σ.expirations + expired.length },
     expired.length,
     expired.map (fun q => HookEvent.onExpire q.1 (unwrapValue q.2.value) ExpireSource.prune))

/-- `MemoryCache.size`: prunes, then counts. -/
def MemoryCache.size (cfg : Config) (now : Nat) (σ : CacheState) :
    CacheState × Nat × List HookEvent :=
  let r := MemoryCache.prune cfg now σ
  (r.1, r.1.cache.length, r.2.2)

/-- `MemoryCache.keys`: prunes, then lists keys in insertion/recency order. -/
def MemoryCache.keys (cfg : Config) (now : Nat) (σ : CacheState) :
    CacheState × List String × List HookEvent :=
  let r := MemoryCache.prune cfg now σ
  (r.1, r.1.cache.map (fun p => p.1), r.2.2)

/-- `MemoryCache.values`: prunes, then lists unwrapped values in order. -/
def MemoryCache.values (cfg : Config) (now : Nat) (σ : CacheState) :
    CacheState × List JsVal × List HookEvent :=
  let r := MemoryCache.prune cfg now σ
  (r.1, r.1.cache.map (fun p => unwrapValue p.2.value), r.2.2)

/-- `MemoryCache.entries`: prunes, then lists key/unwrapped-value pairs. -/
def MemoryCache.entries (cfg : Config) (now : Nat) (σ : CacheState) :
    CacheState × List (String × JsVal) × List HookEvent :=
  let r := MemoryCache.prune cfg now σ
  (r.1, r.1.cache.map (fun p => (p.1, unwrapValue p.2.value)), r.2.2)

/-- The record returned by `getStats`. -/
structure StatsSnapshot where
  hits : Nat
  misses : Nat
  evictions : Nat
  expirations : Nat
  size : Nat
deriving DecidableEq, Repr

/-- `MemoryCache.getStats`.  The object literal reads the four counters
before evaluating `size: this.size()`, so expirations performed by that
embedded prune are not reflected in the returned `expirations` field. -/
def MemoryCache.getStats (cfg : Config) (now : Nat) (σ : CacheState) :
    CacheState × StatsSnapshot × List HookEvent :=
  let h := σ.hits
  let m := σ.misses
  let ev := σ.evictions
  let ex := σ.expirations
  let r := MemoryCache.size cfg now σ
  (r.1, { hits := h, misses := m, evictions := ev, expirations := ex, size := r.2.1 }, r.2.2)

/-- `MemoryCache.resetStats`. -/
def MemoryCache.resetStats (σ : CacheState) : CacheState :=
  { σ with hits := 0, misses := 0, evictions := 0, expirations := 0 }

/-- The outcome a fetcher's promise settles with: a value, or a raised
error (identified by a number, since only identity matters here). -/
inductive FetchOutcome where
  | ok (v : JsVal)
  | err (e : Nat)
deriving DecidableEq, Repr

/-- What one call to `getOrSet` observes at its synchronous return:
a cache hit's value, joining an already-outstanding promise, or having
started a fresh fetch (which is the only case in which the fetcher was
invoked).  `joined`/`started` carry the identifier of the promise whose
settlement the caller will receive. -/
inductive StartResult where
  | hit (v : JsVal)
  | joined (pid : Nat)
  | started (pid : Nat)
deriving DecidableEq, Repr

/-- The synchronous part of `MemoryCache.getOrSet`, up to the suspension
point `await fetcher()`:
1. `if (this.has(key)) return this.get(key)`;
2. join an existing in-flight promise if one is registered;
3. otherwise the async IIFE runs synchronously to its first `await`
   (`this.stats.misses++`, the `onMiss` hook, and the invocation of
   `fetcher()`), and the resulting promise `pid` is registered in
   `inFlight`. -/
def MemoryCache.getOrSetStart (cfg : Config) (now : Nat) (pid : Nat) (σ : CacheState)
    (key : String) : CacheState × StartResult × List HookEvent :=
  let hasR := MemoryCache.has cfg now σ key
  if hasR.2.1 then
    let getR := MemoryCache.get cfg now hasR.1 key
    (getR.1, StartResult.hit getR.2.1, hasR.2.2 ++ getR.2.2)
  else
    match mapGet hasR.1.inFlight key with
    | some existing => (hasR.1, StartResult.joined existing, hasR.2.2)
    | none =>
        let σ1 := { hasR.1 with misses := hasR.1.misses + 1 }
        let σ2 := { σ1 with inFlight := mapSet σ1.inFlight key pid }
        (σ2, StartResult.started pid,
         hasR.2.2 ++ [HookEvent.onMiss key MissReason.notFound])

/-- The continuation of `MemoryCache.getOrSet` that runs when the fetcher's
promise settles with `outcome` — applicable exactly when the fetcher's
synchronous phase completes without throwing (it returns a value or a
promise), so that the IIFE suspends at `await fetcher()` and
`this.inFlight.set(key, fetchPromise)` runs before the settlement arrives.
Then: on success `this.set(key, value)` runs, the `finally` block removes
the in-flight registration (which is in place at this point), and only
after that does the outer promise settle — with the fetcher's own outcome,
which every caller holding this promise therefore receives unchanged.  The
middle component is that settled outcome.  A fetcher that throws
synchronously never reaches this continuation; that path is
`MemoryCache.getOrSetThrow`. -/
def MemoryCache.getOrSetSettle (cfg : Config) (now : Nat) (σ : CacheState) (key : String)
    (outcome : FetchOutcome) : CacheState × FetchOutcome × List HookEvent :=
  match outcome with
  | FetchOutcome.ok v =>
      let setR := MemoryCache.set cfg now σ key v
      ({ setR.1 with inFlight := mapDelete setR.1.inFlight key },
       FetchOutcome.ok v, setR.2)
  | FetchOutcome.err e =>
      ({ σ with inFlight := mapDelete σ.inFlight key },
       FetchOutcome.err e, [])

/-- What one call to `getOrSet` with a synchronously-throwing fetcher
observes: a hit or a join (on those paths the fetcher is never invoked), or
`failed pid e` — the fetcher was invoked and threw `e` before the IIFE's
first suspension, so the caller's promise `pid` is already rejected with
`e` at the moment `getOrSet` returns it. -/
inductive SyncThrowResult where
  | hit (v : JsVal)
  | joined (pid : Nat)
  | failed (pid : Nat) (e : Nat)
deriving DecidableEq, Repr

/-- One complete call to `MemoryCache.getOrSet` whose fetcher throws
synchronously with error `e` (legal for the declared fetcher type
`() => T | Promise<T>`).  On the miss path the async IIFE runs to
completion synchronously: `misses++`, the `onMiss` hook, the fetcher's
throw — and then the `finally` block's `this.inFlight.delete(key)`, which
is a no-op because `this.inFlight.set(key, fetchPromise)` has not executed
yet.  The IIFE yields an already-rejected promise, which `getOrSet` only
then registers under the key and returns.  The registration's sole removal
point — the `finally` — has already run, so the rejected promise stays in
`inFlight` permanently. -/
def MemoryCache.getOrSetThrow (cfg : Config) (now : Nat) (pid : Nat) (σ : CacheState)
    (key : String) (e : Nat) : CacheState × SyncThrowResult × List HookEvent :=
  let hasR := MemoryCache.has cfg now σ key
  if hasR.2.1 then
    let getR := MemoryCache.get cfg now hasR.1 key
    (getR.1, SyncThrowResult.hit getR.2.1, hasR.2.2 ++ getR.2.2)
  else
    match mapGet hasR.1.inFlight key with
    | some existing => (hasR.1, SyncThrowResult.joined existing, hasR.2.2)
    | none =>
        let σ1 := { hasR.1 with misses := hasR.1.misses + 1 }
        let σ2 := { σ1 with inFlight := mapDelete σ1.inFlight key }
        let σ3 := { σ2 with inFlight := mapSet σ2.inFlight key pid }
        (σ3, SyncThrowResult.failed pid e,
         hasR.2.2 ++ [HookEvent.onMiss key MissReason.notFound])

/-- N cooperative callers invoking `getOrSet` on the same key back to back,
with no intervening settlement — the "N concurrent calls during a single
miss" scenario of the specification.  Caller i runs `getOrSetStart` with
its own fresh promise identifier `pids[i]` (used only if that caller is the
one that starts the fetch). -/
def startMany (cfg : Config) (now : Nat) (key : String) (pids : List Nat) (σ : CacheState) :
    CacheState × List StartResult × List HookEvent :=
  match pids with
  | [] => (σ, [], [])
  | p :: ps =>
      let r := MemoryCache.getOrSetStart cfg now p σ key
      let rest := startMany cfg now key ps r.1
      (rest.1, r.2.1 :: rest.2.1, r.2.2 ++ rest.2.2)

/-- UTF-16 code units of a character, as produced by
`String.prototype.charCodeAt` (astral characters are surrogate pairs). -/
def utf16Units (c : Char) : List Nat :=
  if c.toNat < 0x10000 then [c.toNat]
  else [0xD800 + (c.toNat - 0x10000) / 0x400, 0xDC00 + (c.toNat - 0x10000) % 0x400]

/-- One round of the FNV-1a loop:
`hash ^= str.charCodeAt(i); hash = Math.imul(hash, 0x01000193)`.
The accumulator is kept as a natural number below `2^32`; XOR and the
32-bit multiply agree with JavaScript's signed 32-bit versions modulo
`2^32`, and the final `>>> 0` is then the identity. -/
def fnv1aStep (hash unit : Nat) : Nat :=
  ((hash ^^^ unit) * 0x01000193) % 4294967296

/-- `fnv1aHash` from the source: FNV-1a over the UTF-16 code units, with
offset basis `0x811c9dc5` and `(hash >>> 0).toString(16)` (lowercase hex,
no padding) at the end. -/
def fnv1aHash (s : String) : String :=
  let h := (s.toList.flatMap utf16Units).foldl fnv1aStep 0x811c9dc5
  String.mk (Nat.toDigits 16 h)

/-- The wrapper-only part of `CachedDecoratorOptions`: the key-derivation
strategy.  A `keyGenerator` may throw (modelled by `Except`). -/
structure DecoratorKeyCfg where
  keyGenerator : Option (List JsVal → Except Nat String)
  hashKeys : Bool

/-- One call to a method wrapped by the `cached` decorator.
`stringify` stands for the runtime's `JSON.stringify` (a parameter, since it
is not part of this repository), `propertyKey` is the wrapped method's name,
and `method` is the original method, which may throw.  Returns the call's
result (or the propagated error), the wrapped cache's successor state,
whether the original method was invoked, and the hook events of the cache
operations performed. -/
def cachedCall (cfg : Config) (kcfg : DecoratorKeyCfg) (stringify : List JsVal → String)
    (propertyKey : String) (method : List JsVal → Except Nat JsVal) (now : Nat)
    (σ : CacheState) (args : List JsVal) :
    Except Nat JsVal × CacheState × Bool × List HookEvent :=
  let argKeyE : Except Nat String :=
    match kcfg.keyGenerator with
    | some kg => kg args
    | none =>
        if kcfg.hashKeys then Except.ok (fnv1aHash (stringify args))
        else Except.ok (stringify args)
  match argKeyE with
  | Except.error e => (Except.error e, σ, false, [])
  | Except.ok argKey =>
      let key := propertyKey ++ ":" ++ argKey
      let hasR := MemoryCache.has cfg now σ key
      if hasR.2.1 then
        let getR := MemoryCache.get cfg now hasR.1 key
        (Except.ok getR.2.1, getR.1, false, hasR.2.2 ++ getR.2.2)
      else
        match method args with
        | Except.error e => (Except.error e, hasR.1, true, hasR.2.2)
        | Except.ok result =>
            let setR := MemoryCache.set cfg now hasR.1 key result
            (Except.ok result, setR.1, true, hasR.2.2 ++ setR.2)

/-- A user-registered hook, as an arbitrary effect on the engine: given its
context object and the cache state at the moment of invocation, it yields
the state after whatever it did — hooks are closures and may re-entrantly
call cache operations, so they can mutate the store, the counters and the
in-flight registry — and whether it finished by raising. -/
def HookFn (γ : Type) : Type := γ → CacheState → CacheState × Bool

/-- The optional lifecycle hooks of a cache instance. -/
structure Hooks where
  onHit : Option (HookFn (String × JsVal))
  onMiss : Option (HookFn (String × MissReason))
  onSet : Option (HookFn (String × JsVal × Bool))
  onEvict : Option (HookFn (String × JsVal))
  onExpire : Option (HookFn (String × JsVal × ExpireSource))
  onDelete : Option (HookFn (String × JsVal × DeleteSource))

/-- The configuration with no hooks registered. -/
def noHooks : Hooks :=
  { onHit := none, onMiss := none, onSet := none,
    onEvict := none, onExpire := none, onDelete := none }

/-- `MemoryCache.callHook`: a registered hook is invoked inside
`try { hook(context) } catch { /* silent */ }`.  The catch swallows the
hook's raise — no failure ever reaches the triggering operation, which
simply continues — but it does not roll anything back: state mutations the
hook performed before raising persist. -/
def callHook (hook : Option (HookFn γ)) (ctx : γ) (σ : CacheState) : CacheState :=
  match hook with
  | none => σ
  | some h => (h ctx σ).1

/-- A hook configuration whose hooks may observe the state and raise, but
never mutate the engine: invoking any of them through `callHook` leaves the
state exactly as found.  The archetypal "hook that always throws",
`() => \x7b throw new Error() \x7d`, is of this kind. -/
def Hooks.preservesState (h : Hooks) : Prop :=
  (∀ ctx σ, callHook h.onHit ctx σ = σ)
  ∧ (∀ ctx σ, callHook h.onMiss ctx σ = σ)
  ∧ (∀ ctx σ, callHook h.onSet ctx σ = σ)
  ∧ (∀ ctx σ, callHook h.onEvict ctx σ = σ)
  ∧ (∀ ctx σ, callHook h.onExpire ctx σ = σ)
  ∧ (∀ ctx σ, callHook h.onDelete ctx σ = σ)

/-- `MemoryCache.get` with its hook calls threaded at the source's program
points: the miss counter is bumped before `onMiss`, the expired entry is
removed and both counters bumped before `onExpire` then `onMiss`, and the
promotion and hit count happen before `onHit`; each branch's return value
is fixed before the hooks run. -/
def MemoryCache.getWithHooks (h : Hooks) (cfg : Config) (now : Nat) (σ : CacheState)
    (key : String) : CacheState × JsVal :=
  match mapGet σ.cache key with
  | none =>
      let σ1 := { σ with misses := σ.misses + 1 }
      (callHook h.onMiss (key, MissReason.notFound) σ1, JsVal.undef)
  | some entry =>
      if 0 < cfg.ttl ∧ cfg.ttl < now - entry.timestamp then
        let σ1 := { σ with cache := mapDelete σ.cache key,
                           expirations := σ.expirations + 1,
                           misses := σ.misses + 1 }
        let σ2 := callHook h.onExpire (key, unwrapValue entry.value, ExpireSource.get) σ1
        (callHook h.onMiss (key, MissReason.expired) σ2, JsVal.undef)
      else
        let σ1 := { σ with cache := mapSet (mapDelete σ.cache key) key entry,
                           hits := σ.hits + 1 }
        let value := unwrapValue entry.value
        (callHook h.onHit (key, value) σ1, value)

/-- `MemoryCache.has` with its hook call threaded. -/
def MemoryCache.hasWithHooks (h : Hooks) (cfg : Config) (now : Nat) (σ : CacheState)
    (key : String) : CacheState × Bool :=
  match mapGet σ.cache key with
  | none => (σ, false)
  | some entry =>
      if 0 < cfg.ttl ∧ cfg.ttl < now - entry.timestamp then
        let σ1 := { σ with cache := mapDelete σ.cache key }
        (callHook h.onExpire (key, unwrapValue entry.value, ExpireSource.has) σ1, false)
      else (σ, true)

/-- `MemoryCache.set` with its hook calls threaded: `isNewKey` and the
eviction condition are read before any hook runs, the `onEvict` hook runs
after the oldest entry's removal and before the repositioning delete and
final store (which therefore see any state the hook changed), and `onSet`
runs last. -/
def MemoryCache.setWithHooks (h : Hooks) (cfg : Config) (now : Nat) (σ : CacheState)
    (key : String) (value : JsVal) : CacheState :=
  let isNewKey := !(mapContains σ.cache key)
  let σe :=
    if isNewKey ∧ 0 < cfg.maxSize ∧ cfg.maxSize ≤ σ.cache.length then
      match σ.cache.head? with
      | some p =>
          if p.1 == "" then σ
          else
            let evictedValue :=
              match mapGet σ.cache p.1 with
              | some e => unwrapValue e.value
              | none => JsVal.undef
            let σ1 := { σ with cache := mapDelete σ.cache p.1, evictions := σ.evictions + 1 }
            callHook h.onEvict (p.1, evictedValue) σ1
      | none => σ
    else σ
  let σ2 := if isNewKey then σe else { σe with cache := mapDelete σe.cache key }
  let σ3 := { σ2 with cache := mapSet σ2.cache key { value := wrapValue value, timestamp := now } }
  callHook h.onSet (key, value, !isNewKey) σ3

/-- `MemoryCache.delete` with its hook call threaded. -/
def MemoryCache.deleteWithHooks (h : Hooks) (σ : CacheState) (key : String) :
    CacheState × Bool :=
  let entry := mapGet σ.cache key
  let deleted := mapContains σ.cache key
  let σ1 := { σ with cache := mapDelete σ.cache key }
  match entry with
  | some e =>
      if deleted then
        (callHook h.onDelete (key, unwrapValue e.value, DeleteSource.delete) σ1, deleted)
      else (σ1, deleted)
  | none => (σ1, deleted)

/-- `MemoryCache.deleteAsync` with its hook call threaded. -/
def MemoryCache.deleteAsyncWithHooks (h : Hooks) (σ : CacheState) (key : String) :
    CacheState × Bool :=
  let entry := mapGet σ.cache key
  let deleted := mapContains σ.cache key
  let σ1 := { σ with cache := mapDelete σ.cache key }
  match entry with
  | some e =>
      if deleted then
        (callHook h.onDelete (key, unwrapValue e.value, DeleteSource.deleteAsync) σ1, deleted)
      else (σ1, deleted)
  | none => (σ1, deleted)

/-- `MemoryCache.clear` with its hook calls threaded: one `onDelete` per
entry of the store as found at entry to the loop, then the store is
emptied.  The source iterates the live map, so for hooks that mutate the
store mid-loop the visited entries could differ (a hook could even insert
entries forever and keep the loop from terminating); the formal statements
below therefore confine themselves to non-mutating hooks, for which this
snapshot iteration is exact. -/
def MemoryCache.clearWithHooks (h : Hooks) (σ : CacheState) : CacheState :=
  let σ1 := σ.cache.foldl
    (fun s p => callHook h.onDelete (p.1, unwrapValue p.2.value, DeleteSource.clear) s) σ
  { σ1 with cache := [] }

/-- `MemoryCache.deleteByPrefix` with its hook calls threaded (snapshot
iteration; see `MemoryCache.clearWithHooks` for the live-iteration caveat
on mutating hooks). -/
def MemoryCache.deleteByPrefixWithHooks (h : Hooks) (σ : CacheState) (pfx : String) :
    CacheState × Nat :=
  σ.cache.foldl
    (fun acc p =>
      if p.1.startsWith pfx then
        let s1 := { acc.1 with cache := mapDelete acc.1.cache p.1 }
        (callHook h.onDelete (p.1, unwrapValue p.2.value, DeleteSource.deleteByPrefix) s1,
         acc.2 + 1)
      else acc)
    (σ, 0)

/-- `MemoryCache.deleteByMagicString` with its hook calls threaded
(snapshot iteration; see `MemoryCache.clearWithHooks`). -/
def MemoryCache.deleteByMagicStringWithHooks (h : Hooks) (σ : CacheState)
    (magicString : String) : CacheState × Nat :=
  let toks := magicTokens magicString
  σ.cache.foldl
    (fun acc p =>
      if magicMatch toks p.1.toList then
        let s1 := { acc.1 with cache := mapDelete acc.1.cache p.1 }
        (callHook h.onDelete (p.1, unwrapValue p.2.value, DeleteSource.deleteByMagicString) s1,
         acc.2 + 1)
      else acc)
    (σ, 0)

/-- `MemoryCache.prune` with its hook calls threaded (snapshot iteration;
see `MemoryCache.clearWithHooks`). -/
def MemoryCache.pruneWithHooks (h : Hooks) (cfg : Config) (now : Nat) (σ : CacheState) :
    CacheState × Nat :=
  if cfg.ttl = 0 then (σ, 0)
  else
    σ.cache.foldl
      (fun acc p =>
        if cfg.ttl < now - p.2.timestamp then
          let s1 := { acc.1 with cache := mapDelete acc.1.cache p.1,
                                 expirations := acc.1.expirations + 1 }
          (callHook h.onExpire (p.1, unwrapValue p.2.value, ExpireSource.prune) s1,
           acc.2 + 1)
        else acc)
      (σ, 0)

/-- `MemoryCache.size` with hooks: prune, then count. -/
def MemoryCache.sizeWithHooks (h : Hooks) (cfg : Config) (now : Nat) (σ : CacheState) :
    CacheState × Nat :=
  let r := MemoryCache.pruneWithHooks h cfg now σ
  (r.1, r.1.cache.length)

/-- `MemoryCache.keys` with hooks. -/
def MemoryCache.keysWithHooks (h : Hooks) (cfg : Config) (now : Nat) (σ : CacheState) :
    CacheState × List String :=
  let r := MemoryCache.pruneWithHooks h cfg now σ
  (r.1, r.1.cache.map (fun p => p.1))

/-- `MemoryCache.values` with hooks. -/
def MemoryCache.valuesWithHooks (h : Hooks) (cfg : Config) (now : Nat) (σ : CacheState) :
    CacheState × List JsVal :=
  let r := MemoryCache.pruneWithHooks h cfg now σ
  (r.1, r.1.cache.map (fun p => unwrapValue p.2.value))

/-- `MemoryCache.entries` with hooks. -/
def MemoryCache.entriesWithHooks (h : Hooks) (cfg : Config) (now : Nat) (σ : CacheState) :
    CacheState × List (String × JsVal) :=
  let r := MemoryCache.pruneWithHooks h cfg now σ
  (r.1, r.1.cache.map (fun p => (p.1, unwrapValue p.2.value)))

/-- `MemoryCache.getStats` with hooks: the four counters are read before
the embedded prune runs. -/
def MemoryCache.getStatsWithHooks (h : Hooks) (cfg : Config) (now : Nat) (σ : CacheState) :
    CacheState × StatsSnapshot :=
  let hts := σ.hits
  let m := σ.misses
  let ev := σ.evictions
  let ex := σ.expirations
  let r := MemoryCache.sizeWithHooks h cfg now σ
  (r.1, { hits := hts, misses := m, evictions := ev, expirations := ex, size := r.2 })

/-- The synchronous prefix of `MemoryCache.getOrSet` with hooks threaded. -/
def MemoryCache.getOrSetStartWithHooks (h : Hooks) (cfg : Config) (now pid : Nat)
    (σ : CacheState) (key : String) : CacheState × StartResult :=
  let hasR := MemoryCache.hasWithHooks h cfg now σ key
  if hasR.2 then
    let getR := MemoryCache.getWithHooks h cfg now hasR.1 key
    (getR.1, StartResult.hit getR.2)
  else
    match mapGet hasR.1.inFlight key with
    | some existing => (hasR.1, StartResult.joined existing)
    | none =>
        let σ1 := { hasR.1 with misses := hasR.1.misses + 1 }
        let σ2 := callHook h.onMiss (key, MissReason.notFound) σ1
        let σ3 := { σ2 with inFlight := mapSet σ2.inFlight key pid }
        (σ3, StartResult.started pid)

/-- The deferred-settlement continuation of `getOrSet` with hooks threaded
(see `MemoryCache.getOrSetSettle` for its scope). -/
def MemoryCache.getOrSetSettleWithHooks (h : Hooks) (cfg : Config) (now : Nat)
    (σ : CacheState) (key : String) (outcome : FetchOutcome) : CacheState × FetchOutcome :=
  match outcome with
  | FetchOutcome.ok v =>
      let σ1 := MemoryCache.setWithHooks h cfg now σ key v
      ({ σ1 with inFlight := mapDelete σ1.inFlight key }, FetchOutcome.ok v)
  | FetchOutcome.err e =>
      ({ σ with inFlight := mapDelete σ.inFlight key }, FetchOutcome.err e)

/-- `getOrSet` with a synchronously-throwing fetcher, hooks threaded (see
`MemoryCache.getOrSetThrow`). -/
def MemoryCache.getOrSetThrowWithHooks (h : Hooks) (cfg : Config) (now pid : Nat)
    (σ : CacheState) (key : String) (e : Nat) : CacheState × SyncThrowResult :=
  let hasR := MemoryCache.hasWithHooks h cfg now σ key
  if hasR.2 then
    let getR := MemoryCache.getWithHooks h cfg now hasR.1 key
    (getR.1, SyncThrowResult.hit getR.2)
  else
    match mapGet hasR.1.inFlight key with
    | some existing => (hasR.1, SyncThrowResult.joined existing)
    | none =>
        let σ1 := { hasR.1 with misses := hasR.1.misses + 1 }
        let σ2 := callHook h.onMiss (key, MissReason.notFound) σ1
        let σ3 := { σ2 with inFlight := mapDelete σ2.inFlight key }
        let σ4 := { σ3 with inFlight := mapSet σ3.inFlight key pid }
        (σ4, SyncThrowResult.failed pid e)

/-- One public cache operation (the in-process API surface of the engine). -/
inductive CacheOp where
  | get (key : String)
  | has (key : String)
  | set (key : String) (value : JsVal)
  | getOrSetStart (pid : Nat) (key : String)
  | getOrSetSettle (key : String) (outcome : FetchOutcome)
  | getOrSetThrow (pid : Nat) (key : String) (e : Nat)
  | delete (key : String)
  | deleteAsync (key : String)
  | clear
  | deleteByPrefix (pfx : String)
  | deleteByMagicString (pattern : String)
  | size
  | keys
  | values
  | entries
  | getStats
  | resetStats
  | prune
deriving DecidableEq, Repr

/-- The return value of a cache operation. -/
inductive OpRet where
  | val (v : JsVal)
  | flag (b : Bool)
  | count (n : Nat)
  | unit
  | startR (r : StartResult)
  | outcome (o : FetchOutcome)
  | stats (s : StatsSnapshot)
  | throwR (r : SyncThrowResult)
  | strs (l : List String)
  | vals (l : List JsVal)
  | pairs (l : List (String × JsVal))
deriving DecidableEq, Repr

/-- Executes one operation, returning the successor state, the value
returned to the caller, and the hook invocations performed (in order). -/
def runOp (cfg : Config) (now : Nat) (σ : CacheState) :
    CacheOp → CacheState × OpRet × List HookEvent
  | CacheOp.get key =>
      let r := MemoryCache.get cfg now σ key
      (r.1, OpRet.val r.2.1, r.2.2)
  | CacheOp.has key =>
      let r := MemoryCache.has cfg now σ key
      (r.1, OpRet.flag r.2.1, r.2.2)
  | CacheOp.set key v =>
      let r := MemoryCache.set cfg now σ key v
      (r.1, OpRet.unit, r.2)
  | CacheOp.getOrSetStart pid key =>
      let r := MemoryCache.getOrSetStart cfg now pid σ key
      (r.1, OpRet.startR r.2.1, r.2.2)
  | CacheOp.getOrSetSettle key outcome =>
      let r := MemoryCache.getOrSetSettle cfg now σ key outcome
      (r.1, OpRet.outcome r.2.1, r.2.2)
  | CacheOp.getOrSetThrow pid key e =>
      let r := MemoryCache.getOrSetThrow cfg now pid σ key e
      (r.1, OpRet.throwR r.2.1, r.2.2)
  | CacheOp.delete key =>
      let r := MemoryCache.delete σ key
      (r.1, OpRet.flag r.2.1, r.2.2)
  | CacheOp.deleteAsync key =>
      let r := MemoryCache.deleteAsync σ key
      (r.1, OpRet.flag r.2.1, r.2.2)
  | CacheOp.clear =>
      let r := MemoryCache.clear σ
      (r.1, OpRet.unit, r.2)
  | CacheOp.deleteByPrefix pfx =>
      let r := MemoryCache.deleteByPrefix σ pfx
      (r.1, OpRet.count r.2.1, r.2.2)
  | CacheOp.deleteByMagicString pat =>
      let r := MemoryCache.deleteByMagicString σ pat
      (r.1, OpRet.count r.2.1, r.2.2)
  | CacheOp.size =>
      let r := MemoryCache.size cfg now σ
      (r.1, OpRet.count r.2.1, r.2.2)
  | CacheOp.keys =>
      let r := MemoryCache.keys cfg now σ
      (r.1, OpRet.strs r.2.1, r.2.2)
  | CacheOp.values =>
      let r := MemoryCache.values cfg now σ
      (r.1, OpRet.vals r.2.1, r.2.2)
  | CacheOp.entries =>
      let r := MemoryCache.entries cfg now σ
      (r.1, OpRet.pairs r.2.1, r.2.2)
  | CacheOp.getStats =>
      let r := MemoryCache.getStats cfg now σ
      (r.1, OpRet.stats r.2.1, r.2.2)
  | CacheOp.resetStats =>
      (MemoryCache.resetStats σ, OpRet.unit, [])
  | CacheOp.prune =>
      let r := MemoryCache.prune cfg now σ
      (r.1, OpRet.count r.2.1, r.2.2)

/-- Executes one operation with a hook configuration registered, using the
`...WithHooks` variants, which invoke `callHook` at the source's program
points and thread the state a hook hands back into the remainder of the
operation.  The caller observes the successor state and the return
value. -/
def runOpWithHooks (h : Hooks) (cfg : Config) (now : Nat) (σ : CacheState) :
    CacheOp → CacheState × OpRet
  | CacheOp.get key =>
      let r := MemoryCache.getWithHooks h cfg now σ key
      (r.1, OpRet.val r.2)
  | CacheOp.has key =>
      let r := MemoryCache.hasWithHooks h cfg now σ key
      (r.1, OpRet.flag r.2)
  | CacheOp.set key v =>
      (MemoryCache.setWithHooks h cfg now σ key v, OpRet.unit)
  | CacheOp.getOrSetStart pid key =>
      let r := MemoryCache.getOrSetStartWithHooks h cfg now pid σ key
      (r.1, OpRet.startR r.2)
  | CacheOp.getOrSetSettle key outcome =>
      let r := MemoryCache.getOrSetSettleWithHooks h cfg now σ key outcome
      (r.1, OpRet.outcome r.2)
  | CacheOp.getOrSetThrow pid key e =>
      let r := MemoryCache.getOrSetThrowWithHooks h cfg now pid σ key e
      (r.1, OpRet.throwR r.2)
  | CacheOp.delete key =>
      let r := MemoryCache.deleteWithHooks h σ key
      (r.1, OpRet.flag r.2)
  | CacheOp.deleteAsync key =>
      let r := MemoryCache.deleteAsyncWithHooks h σ key
      (r.1, OpRet.flag r.2)
  | CacheOp.clear =>
      (MemoryCache.clearWithHooks h σ, OpRet.unit)
  | CacheOp.deleteByPrefix pfx =>
      let r := MemoryCache.deleteByPrefixWithHooks h σ pfx
      (r.1, OpRet.count r.2)
  | CacheOp.deleteByMagicString pat =>
      let r := MemoryCache.deleteByMagicStringWithHooks h σ pat
      (r.1, OpRet.count r.2)
  | CacheOp.size =>
      let r := MemoryCache.sizeWithHooks h cfg now σ
      (r.1, OpRet.count r.2)
  | CacheOp.keys =>
      let r := MemoryCache.keysWithHooks h cfg now σ
      (r.1, OpRet.strs r.2)
  | CacheOp.values =>
      let r := MemoryCache.valuesWithHooks h cfg now σ
      (r.1, OpRet.vals r.2)
  | CacheOp.entries =>
      let r := MemoryCache.entriesWithHooks h cfg now σ
      (r.1, OpRet.pairs r.2)
  | CacheOp.getStats =>
      let r := MemoryCache.getStatsWithHooks h cfg now σ
      (r.1, OpRet.stats r.2)
  | CacheOp.resetStats =>
      (MemoryCache.resetStats σ, OpRet.unit)
  | CacheOp.prune =>
      let r := MemoryCache.pruneWithHooks h cfg now σ
      (r.1, OpRet.count r.2)

/-- Round trip of the sentinel wrapping: the engine always hands back the
value the caller stored. -/
theorem unwrapValue_wrapValue (v : JsVal) : unwrapValue (wrapValue v) = v := by
  cases v <;> rfl

/-- A string with no characters is the empty string. -/
theorem toList_eq_nil_iff (s : String) : s.toList = [] ↔ s = "" := by
  constructor
  · intro h
    cases s with
    | mk d => simp only [String.toList] at h; subst h; rfl
  · intro h; subst h; rfl

theorem find?_map_replace (m : List (String × α)) (k : String) (v : α)
    (hc : mapContains m k = true) :
    (m.map (fun p => if p.1 == k then (k, v) else p)).find? (fun p => p.1 == k)
      = some (k, v) := by
  induction m with
  | nil => simp [mapContains] at hc
  | cons p t ih =>
      by_cases hp : (p.1 == k) = true
      · rw [List.map_cons, if_pos hp, List.find?_cons_of_pos _ (by simp)]
      · have hp' : (p.1 == k) = false := by simpa using hp
        have hc' : mapContains t k = true := by
          simp only [mapContains, List.any_cons, hp', Bool.false_or] at hc
          exact hc
        rw [List.map_cons, if_neg hp, List.find?_cons_of_neg _ (by simp [hp']), ih hc']

theorem find?_append_singleton (m : List (String × α)) (k : String) (v : α)
    (hc : mapContains m k = false) :
    ((m ++ [(k, v)]).find? (fun p => p.1 == k)) = some (k, v) := by
  induction m with
  | nil => simp [List.find?]
  | cons p t ih =>
      have hp : (p.1 == k) = false := by
        simp only [mapContains, List.any_cons, Bool.or_eq_false_iff] at hc
        exact hc.1
      have hc' : mapContains t k = false := by
        simp only [mapContains, List.any_cons, Bool.or_eq_false_iff] at hc
        exact hc.2
      simp [List.find?, hp, ih hc']

/-- After a `Map.set`, looking the key up yields exactly the stored value. -/
theorem mapGet_mapSet_self (m : List (String × α)) (k : String) (v : α) :
    mapGet (mapSet m k v) k = some v := by
  by_cases hc : mapContains m k = true
  · rw [mapSet, if_pos hc, mapGet, find?_map_replace m k v hc]
    rfl
  · have hc' : mapContains m k = false := by simpa using hc
    rw [mapSet, if_neg (by simp [hc']), mapGet, find?_append_singleton m k v hc']
    rfl

/-- After a `Map.delete`, the key is gone. -/
theorem mapGet_mapDelete_self (m : List (String × α)) (k : String) :
    mapGet (mapDelete m k) k = none := by
  have h : (mapDelete m k).find? (fun p => p.1 == k) = none := by
    induction m with
    | nil => rfl
    | cons p t ih =>
        by_cases hp : (p.1 == k) = true
        · rw [mapDelete, List.filter_cons, if_neg (by simp [hp])]
          exact ih
        · have hp' : (p.1 == k) = false := by simpa using hp
          rw [mapDelete, List.filter_cons, if_pos (by simp [hp']),
            List.find?_cons_of_neg _ (by simp [hp'])]
          exact ih
  simp [mapGet, h]

/-- Declarative acceptance of a tokenized magic string: literals match
themselves, and a `*` gap swallows any run of characters permitted by the
(ECMAScript) dot — empty runs included. -/
inductive MagicAccepts : List MagicTok → List Char → Prop where
  | nil : MagicAccepts [] []
  | lit (c : Char) (ps : List MagicTok) (ks : List Char) :
      MagicAccepts ps ks → MagicAccepts (MagicTok.lit c :: ps) (c :: ks)
  | starHere (ps : List MagicTok) (ks : List Char) :
      MagicAccepts ps ks → MagicAccepts (MagicTok.star :: ps) ks
  | starStep (k : Char) (ps : List MagicTok) (ks : List Char) :
      jsDotMatches k = true → MagicAccepts (MagicTok.star :: ps) ks →
      MagicAccepts (MagicTok.star :: ps) (k :: ks)

theorem magicStar_iff (cont : List Char → Bool) (ks : List Char) :
    magicStar cont ks = true ↔
      ∃ gap rest, ks = gap ++ rest ∧ (∀ c ∈ gap, jsDotMatches c = true) ∧ cont rest = true := by
  induction ks with
  | nil =>
      simp only [magicStar]
      constructor
      · intro h
        exact ⟨[], [], rfl, by simp, h⟩
      · rintro ⟨gap, rest, hsplit, _, hcont⟩
        have hgap : gap = [] := by cases gap <;> simp_all
        have hrest : rest = [] := by simp_all
        subst hgap; subst hrest; exact hcont
  | cons k ks ih =>
      simp only [magicStar, Bool.or_eq_true, Bool.and_eq_true, ih]
      constructor
      · rintro (h | ⟨hdot, gap, rest, rfl, hgap, hcont⟩)
        · exact ⟨[], k :: ks, rfl, by simp, h⟩
        · refine ⟨k :: gap, rest, rfl, ?_, hcont⟩
          intro c hc
          rcases List.mem_cons.mp hc with rfl | hc
          · exact hdot
          · exact hgap c hc
      · rintro ⟨gap, rest, hsplit, hgap, hcont⟩
        cases gap with
        | nil =>
            left
            simp only [List.nil_append] at hsplit
            subst hsplit
            exact hcont
        | cons g gs =>
            right
            rw [List.cons_append] at hsplit
            injection hsplit with h1 h2
            subst h1
            exact ⟨hgap k (by simp), gs, rest, h2,
              fun c hc => hgap c (List.mem_cons_of_mem _ hc), hcont⟩

theorem accepts_star_iff (ps : List MagicTok) (ks : List Char) :
    MagicAccepts (MagicTok.star :: ps) ks ↔
      ∃ gap rest, ks = gap ++ rest ∧ (∀ c ∈ gap, jsDotMatches c = true) ∧ MagicAccepts ps rest := by
  constructor
  · intro h
    induction ks with
    | nil =>
        cases h with
        | starHere _ _ h => exact ⟨[], [], rfl, by simp, h⟩
    | cons k ks ih =>
        cases h with
        | starHere _ _ h => exact ⟨[], k :: ks, rfl, by simp, h⟩
        | starStep _ _ _ hdot h =>
            obtain ⟨gap, rest, rfl, hgap, hrest⟩ := ih h
            refine ⟨k :: gap, rest, rfl, ?_, hrest⟩
            intro c hc
            rcases List.mem_cons.mp hc with rfl | hc
            · exact hdot
            · exact hgap c hc
  · rintro ⟨gap, rest, rfl, hgap, hrest⟩
    induction gap with
    | nil => exact MagicAccepts.starHere ps rest hrest
    | cons g gs ih =>
        exact MagicAccepts.starStep g ps (gs ++ rest) (hgap g (by simp))
          (ih (fun c hc => hgap c (by simp [hc])))

/-- The executable matcher decides the declarative acceptance relation. -/
theorem magicMatch_iff_accepts (ps : List MagicTok) (ks : List Char) :
    magicMatch ps ks = true ↔ MagicAccepts ps ks := by
  induction ps generalizing ks with
  | nil =>
      simp only [magicMatch, List.isEmpty_iff]
      constructor
      · intro h; subst h; exact MagicAccepts.nil
      · intro h; cases h; rfl
  | cons t ps ih =>
      cases t with
      | lit c =>
          cases ks with
          | nil =>
              simp only [magicMatch]
              constructor
              · intro h; cases h
              · intro h; cases h
          | cons k ks =>
              simp only [magicMatch, Bool.and_eq_true, beq_iff_eq, ih]
              constructor
              · rintro ⟨rfl, h⟩; exact MagicAccepts.lit c ps ks h
              · intro h; cases h with
                | lit _ _ _ h => exact ⟨rfl, h⟩
      | star =>
          simp only [magicMatch, magicStar_iff, accepts_star_iff]
          constructor
          · rintro ⟨gap, rest, rfl, hgap, hcont⟩
            exact ⟨gap, rest, rfl, hgap, (ih rest).mp hcont⟩
          · rintro ⟨gap, rest, rfl, hgap, hrest⟩
            exact ⟨gap, rest, rfl, hgap, (ih rest).mpr hrest⟩

instance (ps : List MagicTok) (ks : List Char) : Decidable (MagicAccepts ps ks) :=
  decidable_of_iff (magicMatch ps ks = true) (magicMatch_iff_accepts ps ks)

/-- The cache of `set` always maps the written key to the wrapped value with
the current timestamp: the final `Map.set` is the last store mutation, and
neither the eviction step (which removes the oldest key, never the written
one) nor the repositioning delete can re-introduce `key`. -/
theorem set_cache_lookup (cfg : Config) (now : Nat) (σ : CacheState) (key : String)
    (v : JsVal) :
    mapGet (MemoryCache.set cfg now σ key v).1.cache key
      = some { value := wrapValue v, timestamp := now } := by
  simp only [MemoryCache.set]
  exact mapGet_mapSet_self _ _ _

/-- `set` never changes the hit, miss or expiration counters. -/
theorem set_stats_frame (cfg : Config) (now : Nat) (σ : CacheState) (key : String)
    (v : JsVal) :
    (MemoryCache.set cfg now σ key v).1.hits = σ.hits
  ∧ (MemoryCache.set cfg now σ key v).1.misses = σ.misses
  ∧ (MemoryCache.set cfg now σ key v).1.expirations = σ.expirations := by
  simp only [MemoryCache.set]
  repeat' split
  all_goals simp

/-- C1.  The claim states that whenever `set` is called with a new key while
the store holds at least `maxSize > 0` entries, the first entry in store
order is evicted.  The code contradicts this — and its own documentation
("the least recently used entry is evicted to make room") — when the oldest
key is the empty string: `if (oldestKey)` tests JavaScript truthiness, and
`""` is falsy, so the eviction block is skipped and the store outgrows
`maxSize`.  Concretely, with `maxSize = 1`: `set("", "a")` then
`set("b", "b")` leaves both entries in place, evicts nothing, records no
eviction, and emits only the `onSet` event. -/
theorem set_skips_eviction_when_oldest_key_is_empty :
    (MemoryCache.set { maxSize := 1, ttl := 0 } 1
        (MemoryCache.set { maxSize := 1, ttl := 0 } 0 initialState "" (JsVal.str "a")).1
        "b" (JsVal.str "b")).1.cache
      = [("", { value := Stored.plain (JsVal.str "a"), timestamp := 0 }),
         ("b", { value := Stored.plain (JsVal.str "b"), timestamp := 1 })]
  ∧ (MemoryCache.set { maxSize := 1, ttl := 0 } 1
        (MemoryCache.set { maxSize := 1, ttl := 0 } 0 initialState "" (JsVal.str "a")).1
        "b" (JsVal.str "b")).1.evictions = 0
  ∧ (MemoryCache.set { maxSize := 1, ttl := 0 } 1
        (MemoryCache.set { maxSize := 1, ttl := 0 } 0 initialState "" (JsVal.str "a")).1
        "b" (JsVal.str "b")).2
      = [HookEvent.onSet "b" (JsVal.str "b") false] := by
  decide

/-- C2.  An entry set at time 0 with `ttl = T > 0` is, at time exactly `T`,
still a hit: `get` returns the stored value, fires `onHit`, and increments
`hits`.  At time `T + 1` the entry is expired: `get` removes it, increments
both `expirations` and `misses`, fires `onExpire` (source `get`) then
`onMiss` (reason `expired`), and returns absent. -/
theorem ttl_boundary (cfg : Config) (σ0 : CacheState) (key : String) (v : JsVal)
    (hT : 0 < cfg.ttl) :
    ((MemoryCache.get cfg cfg.ttl (MemoryCache.set cfg 0 σ0 key v).1 key).2.1 = v
    ∧ (MemoryCache.get cfg cfg.ttl (MemoryCache.set cfg 0 σ0 key v).1 key).2.2
        = [HookEvent.onHit key v]
    ∧ (MemoryCache.get cfg cfg.ttl (MemoryCache.set cfg 0 σ0 key v).1 key).1.hits
        = (MemoryCache.set cfg 0 σ0 key v).1.hits + 1)
  ∧ (mapGet (MemoryCache.get cfg (cfg.ttl + 1)
        (MemoryCache.set cfg 0 σ0 key v).1 key).1.cache key = none
    ∧ (MemoryCache.get cfg (cfg.ttl + 1) (MemoryCache.set cfg 0 σ0 key v).1 key).1.expirations
        = (MemoryCache.set cfg 0 σ0 key v).1.expirations + 1
    ∧ (MemoryCache.get cfg (cfg.ttl + 1) (MemoryCache.set cfg 0 σ0 key v).1 key).1.misses
        = (MemoryCache.set cfg 0 σ0 key v).1.misses + 1
    ∧ (MemoryCache.get cfg (cfg.ttl + 1) (MemoryCache.set cfg 0 σ0 key v).1 key).2.2
        = [HookEvent.onExpire key v ExpireSource.get, HookEvent.onMiss key MissReason.expired]
    ∧ (MemoryCache.get cfg (cfg.ttl + 1) (MemoryCache.set cfg 0 σ0 key v).1 key).2.1
        = JsVal.undef) := by
  have hlook := set_cache_lookup cfg 0 σ0 key v
  have hvalid : ¬(0 < cfg.ttl ∧ cfg.ttl < cfg.ttl - 0) := by omega
  have hexp : 0 < cfg.ttl ∧ cfg.ttl < (cfg.ttl + 1) - 0 := by omega
  constructor
  · simp [MemoryCache.get, hlook, hvalid, unwrapValue_wrapValue]
  · simp [MemoryCache.get, hlook, hexp, unwrapValue_wrapValue, mapGet_mapDelete_self]

/-- Witness for `ttl_boundary` at the concrete input `ttl = 5`,
`key = "k"`, `v = "x"`. -/
theorem ttl_boundary_witness :
    (MemoryCache.get { maxSize := 100, ttl := 5 } 5
        (MemoryCache.set { maxSize := 100, ttl := 5 } 0 initialState "k" (JsVal.str "x")).1
        "k").2.1 = JsVal.str "x"
  ∧ (MemoryCache.get { maxSize := 100, ttl := 5 } 6
        (MemoryCache.set { maxSize := 100, ttl := 5 } 0 initialState "k" (JsVal.str "x")).1
        "k").2.1 = JsVal.undef :=
  ⟨(ttl_boundary { maxSize := 100, ttl := 5 } initialState "k" (JsVal.str "x")
      (by decide)).1.1,
   (ttl_boundary { maxSize := 100, ttl := 5 } initialState "k" (JsVal.str "x")
      (by decide)).2.2.2.2.2⟩

/-- Rewrites the `source: 'delete'` tag of an `onDelete` context to
`'deleteAsync'`; every other event is untouched. -/
def retagDeleteSource (e : HookEvent) : HookEvent :=
  match e with
  | HookEvent.onDelete k v DeleteSource.delete =>
      HookEvent.onDelete k v DeleteSource.deleteAsync
  | e => e

/-- C9 counterexample.  `delete` and `deleteAsync` do NOT produce the same
observable hook behaviour: on the same one-entry state, `delete` invokes
`onDelete` with `source: 'delete'` while `deleteAsync` invokes it with
`source: 'deleteAsync'`, so their hook-event traces differ. -/
theorem deleteAsync_hook_trace_differs :
    (MemoryCache.delete
        { initialState with
            cache := [("k", { value := Stored.plain (JsVal.str "x"), timestamp := 0 })] }
        "k").2.2
      ≠ (MemoryCache.deleteAsync
        { initialState with
            cache := [("k", { value := Stored.plain (JsVal.str "x"), timestamp := 0 })] }
        "k").2.2 := by
  decide

/-- C9 (amended).  `deleteAsync(key)` removes the same entry as
`delete(key)`, returns the same boolean, and leaves the cache in the same
state; its hook behaviour is identical except that the `onDelete` context
carries `source: 'deleteAsync'` in place of `source: 'delete'`. -/
theorem deleteAsync_refines_delete (σ : CacheState) (key : String) :
    (MemoryCache.deleteAsync σ key).1 = (MemoryCache.delete σ key).1
  ∧ (MemoryCache.deleteAsync σ key).2.1 = (MemoryCache.delete σ key).2.1
  ∧ (MemoryCache.deleteAsync σ key).2.2
      = (MemoryCache.delete σ key).2.2.map retagDeleteSource := by
  refine ⟨rfl, rfl, ?_⟩
  simp only [MemoryCache.delete, MemoryCache.deleteAsync]
  cases mapGet σ.cache key with
  | none => rfl
  | some e =>
      by_cases hd : mapContains σ.cache key = true
      · simp [hd, retagDeleteSource]
      · simp [hd]

/-- C10.  On an entry whose age strictly exceeds a positive `ttl`,
`has(key)` removes the entry and fires `onExpire` with source `has`, but
leaves all four statistics counters unchanged — whereas `get(key)` on the
same state increments both `expirations` and `misses`. -/
theorem has_expired_frame (cfg : Config) (now : Nat) (σ : CacheState) (key : String)
    (entry : CacheEntry) (hentry : mapGet σ.cache key = some entry)
    (httl : 0 < cfg.ttl) (hexp : cfg.ttl < now - entry.timestamp) :
    ((MemoryCache.has cfg now σ key).1.cache = mapDelete σ.cache key
    ∧ mapGet (MemoryCache.has cfg now σ key).1.cache key = none
    ∧ (MemoryCache.has cfg now σ key).2.1 = false
    ∧ (MemoryCache.has cfg now σ key).2.2
        = [HookEvent.onExpire key (unwrapValue entry.value) ExpireSource.has]
    ∧ (MemoryCache.has cfg now σ key).1.hits = σ.hits
    ∧ (MemoryCache.has cfg now σ key).1.misses = σ.misses
    ∧ (MemoryCache.has cfg now σ key).1.evictions = σ.evictions
    ∧ (MemoryCache.has cfg now σ key).1.expirations = σ.expirations)
  ∧ ((MemoryCache.get cfg now σ key).1.expirations = σ.expirations + 1
    ∧ (MemoryCache.get cfg now σ key).1.misses = σ.misses + 1) := by
  have hcond : 0 < cfg.ttl ∧ cfg.ttl < now - entry.timestamp := ⟨httl, hexp⟩
  constructor
  · simp [MemoryCache.has, hentry, hcond, mapGet_mapDelete_self]
  · simp [MemoryCache.get, hentry, hcond]

/-- Witness for `has_expired_frame`: `ttl = 1`, an entry written at time 0,
looked up at time 2. -/
theorem has_expired_frame_witness :
    mapGet ({ initialState with
        cache := [("k", { value := Stored.plain (JsVal.str "x"), timestamp := 0 })] }
          : CacheState).cache "k"
      = some { value := Stored.plain (JsVal.str "x"), timestamp := 0 }
  ∧ (MemoryCache.has { maxSize := 100, ttl := 1 } 2
        { initialState with
            cache := [("k", { value := Stored.plain (JsVal.str "x"), timestamp := 0 })] }
        "k").2.1 = false
  ∧ (MemoryCache.has { maxSize := 100, ttl := 1 } 2
        { initialState with
            cache := [("k", { value := Stored.plain (JsVal.str "x"), timestamp := 0 })] }
        "k").1.expirations = 0 :=
  ⟨by decide,
   (has_expired_frame { maxSize := 100, ttl := 1 } 2
      { initialState with
          cache := [("k", { value := Stored.plain (JsVal.str "x"), timestamp := 0 })] }
      "k" { value := Stored.plain (JsVal.str "x"), timestamp := 0 }
      (by decide) (by decide) (by decide)).1.2.2.1,
   (has_expired_frame { maxSize := 100, ttl := 1 } 2
      { initialState with
          cache := [("k", { value := Stored.plain (JsVal.str "x"), timestamp := 0 })] }
      "k" { value := Stored.plain (JsVal.str "x"), timestamp := 0 }
      (by decide) (by decide) (by decide)).1.2.2.2.2.2.2.2⟩

/-- Modelled from the spec: the claimed gap semantics in which each `*`
matches ANY substring — with no carve-out for line terminators.  Stated
only to compare the claim's words with the implementation's `magicMatch`;
`cont` is the matcher for the remaining tokens. -/
def specStar (cont : List Char → Bool) : List Char → Bool
  | [] => cont []
  | k :: ks => cont (k :: ks) || specStar cont ks

/-- Modelled from the spec: anchored wildcard matching in which `*` matches
any substring (including the empty one) and every other character matches
itself literally. -/
def specStarMatch : List MagicTok → List Char → Bool
  | [], ks => ks.isEmpty
  | MagicTok.lit c :: ps, ks =>
      match ks with
      | [] => false
      | k :: ks' => c == k && specStarMatch ps ks'
  | MagicTok.star :: ps, ks => specStar (fun rest => specStarMatch ps rest) ks

/-- The executable matcher agrees pointwise with the decidable form of the
declarative acceptance relation. -/
theorem magicMatch_eq_decide (ps : List MagicTok) (ks : List Char) :
    magicMatch ps ks = decide (MagicAccepts ps ks) := by
  by_cases h : MagicAccepts ps ks
  · rw [decide_eq_true h]
    exact (magicMatch_iff_accepts ps ks).mpr h
  · rw [decide_eq_false h]
    exact Bool.eq_false_iff.mpr (fun hc => h ((magicMatch_iff_accepts ps ks).mp hc))

/-- C5 counterexample.  The claim says `deleteByMagicString("")` removes no
entries and returns 0 for every stored key set, "including when a stored
key is the empty string".  But the empty pattern compiles to the regex
`^$`, which matches the empty key: on a store holding key `""`, the call
removes that entry and returns 1. -/
theorem magic_empty_pattern_removes_empty_key :
    (MemoryCache.deleteByMagicString
        { initialState with
            cache := [("", { value := Stored.plain (JsVal.str "v"), timestamp := 0 })] }
        "").2.1 = 1
  ∧ (MemoryCache.deleteByMagicString
        { initialState with
            cache := [("", { value := Stored.plain (JsVal.str "v"), timestamp := 0 })] }
        "").1.cache = [] := by
  decide

/-- C5 (amended).  `deleteByMagicString("")` removes exactly the entries
whose key is the empty string, firing `onDelete` for each and returning
their count — so it removes nothing and returns 0 precisely when the
empty-string key is not stored. -/
theorem magic_empty_pattern_exact (σ : CacheState) :
    (MemoryCache.deleteByMagicString σ "").1.cache
        = σ.cache.filter (fun q => !(q.1 == ""))
  ∧ (MemoryCache.deleteByMagicString σ "").2.1
        = (σ.cache.filter (fun q => q.1 == "")).length
  ∧ (MemoryCache.deleteByMagicString σ "").2.2
        = (σ.cache.filter (fun q => q.1 == "")).map
            (fun q => HookEvent.onDelete q.1 (unwrapValue q.2.value)
              DeleteSource.deleteByMagicString) := by
  have hmatch : ∀ q : String × CacheEntry,
      magicMatch (magicTokens "") q.1.toList = (q.1 == "") := by
    intro q
    show q.1.toList.isEmpty = (q.1 == "")
    by_cases h : q.1 = ""
    · simp [h]
    · have h1 : q.1.toList ≠ [] := fun hc => h ((toList_eq_nil_iff q.1).mp hc)
      rw [List.isEmpty_eq_false.mpr h1]
      exact (Bool.eq_false_iff.mpr (fun hc => h (beq_iff_eq.mp hc))).symm
  refine ⟨?_, ?_, ?_⟩
  · simp only [MemoryCache.deleteByMagicString]
    exact List.filter_congr (fun a _ => by rw [hmatch a])
  · simp only [MemoryCache.deleteByMagicString]
    exact congrArg List.length (List.filter_congr (fun a _ => by rw [hmatch a]))
  · simp only [MemoryCache.deleteByMagicString]
    exact congrArg _ (List.filter_congr (fun a _ => by rw [hmatch a]))

/-- C6 counterexample.  The claim says `*` matches ANY substring, so
pattern `"a*b"` should match — and `deleteByMagicString` should remove —
the key `"a\nb"`.  It does not: the compiled regex's `.` (no `s` flag)
refuses line terminators, so the entry survives and the call returns 0,
although the spec-modelled matcher accepts the key. -/
theorem magic_star_newline_counterexample :
    specStarMatch (magicTokens "a*b") "a\nb".toList = true
  ∧ (MemoryCache.deleteByMagicString
        { initialState with
            cache := [("a\nb", { value := Stored.plain (JsVal.str "v"), timestamp := 0 })] }
        "a*b").2.1 = 0
  ∧ (MemoryCache.deleteByMagicString
        { initialState with
            cache := [("a\nb", { value := Stored.plain (JsVal.str "v"), timestamp := 0 })] }
        "a*b").1.cache
      = [("a\nb", { value := Stored.plain (JsVal.str "v"), timestamp := 0 })] := by
  decide

/-- C6 (amended).  `deleteByMagicString` removes exactly the entries whose
whole key is accepted by the pattern under the declarative semantics
`MagicAccepts` — every non-`*` character (regex metacharacters included)
matches only its literal self, and each `*` matches any substring whose
characters are all accepted by the ECMAScript dot, i.e. any substring free
of line terminators — firing `onDelete` per removal and returning the
removal count.  In particular pattern `"a.b"` accepts the key `"a.b"` and
rejects `"a+b"`, and on a store holding exactly those two keys it removes
only the literal `"a.b"` entry. -/
theorem deleteByMagicString_exact (σ : CacheState) (pattern : String) :
    ((MemoryCache.deleteByMagicString σ pattern).1.cache
        = σ.cache.filter (fun q => !decide (MagicAccepts (magicTokens pattern) q.1.toList))
    ∧ (MemoryCache.deleteByMagicString σ pattern).2.1
        = (σ.cache.filter (fun q => decide (MagicAccepts (magicTokens pattern) q.1.toList))).length
    ∧ (MemoryCache.deleteByMagicString σ pattern).2.2
        = (σ.cache.filter (fun q => decide (MagicAccepts (magicTokens pattern) q.1.toList))).map
            (fun q => HookEvent.onDelete q.1 (unwrapValue q.2.value)
              DeleteSource.deleteByMagicString))
  ∧ ((∀ ks : List Char, MagicAccepts [] ks ↔ ks = [])
    ∧ (∀ (c : Char) (ps : List MagicTok), ¬ MagicAccepts (MagicTok.lit c :: ps) [])
    ∧ (∀ (c k : Char) (ps : List MagicTok) (ks : List Char),
        MagicAccepts (MagicTok.lit c :: ps) (k :: ks) ↔ c = k ∧ MagicAccepts ps ks)
    ∧ (∀ (ps : List MagicTok) (ks : List Char),
        MagicAccepts (MagicTok.star :: ps) ks ↔
          ∃ gap rest, ks = gap ++ rest ∧ (∀ c ∈ gap, jsDotMatches c = true)
            ∧ MagicAccepts ps rest))
  ∧ (MagicAccepts (magicTokens "a.b") "a.b".toList
    ∧ ¬ MagicAccepts (magicTokens "a.b") "a+b".toList
    ∧ (MemoryCache.deleteByMagicString
          { initialState with
              cache := [("a.b", { value := Stored.plain (JsVal.str "1"), timestamp := 0 }),
                        ("a+b", { value := Stored.plain (JsVal.str "2"), timestamp := 0 })] }
          "a.b").1.cache
        = [("a+b", { value := Stored.plain (JsVal.str "2"), timestamp := 0 })]
    ∧ (MemoryCache.deleteByMagicString
          { initialState with
              cache := [("a.b", { value := Stored.plain (JsVal.str "1"), timestamp := 0 }),
                        ("a+b", { value := Stored.plain (JsVal.str "2"), timestamp := 0 })] }
          "a.b").2.1 = 1) := by
  refine ⟨⟨?_, ?_, ?_⟩, ⟨?_, ?_, ?_, ?_⟩, by decide, by decide, by decide, by decide⟩
  · simp only [MemoryCache.deleteByMagicString]
    exact List.filter_congr (fun a _ => by rw [magicMatch_eq_decide])
  · simp only [MemoryCache.deleteByMagicString]
    exact congrArg List.length (List.filter_congr (fun a _ => by rw [magicMatch_eq_decide]))
  · simp only [MemoryCache.deleteByMagicString]
    exact congrArg _ (List.filter_congr (fun a _ => by rw [magicMatch_eq_decide]))
  · intro ks
    constructor
    · intro h; cases h; rfl
    · intro h; subst h; exact MagicAccepts.nil
  · intro c ps h
    cases h
  · intro c k ps ks
    constructor
    · intro h
      cases h with
      | lit _ _ _ h => exact ⟨rfl, h⟩
    · rintro ⟨rfl, h⟩
      exact MagicAccepts.lit c ps ks h
  · exact accepts_star_iff

/-- The first caller of a miss: with the key absent from the store and no
in-flight fetch registered, `getOrSetStart` records one miss, fires one
`onMiss` (reason `not_found`), invokes the fetcher (result `started`), and
registers its promise under the key. -/
theorem getOrSetStart_fresh (cfg : Config) (now pid : Nat) (σ : CacheState) (key : String)
    (hc : mapGet σ.cache key = none) (hf : mapGet σ.inFlight key = none) :
    MemoryCache.getOrSetStart cfg now pid σ key
      = ({ σ with misses := σ.misses + 1, inFlight := mapSet σ.inFlight key pid },
         StartResult.started pid,
         [HookEvent.onMiss key MissReason.notFound]) := by
  simp [MemoryCache.getOrSetStart, MemoryCache.has, hc, hf]

/-- A caller arriving while a fetch for the key is outstanding (and the key
is still absent from the store) joins that promise: no new fetch, no state
change, no hook events. -/
theorem startMany_all_join (cfg : Config) (now : Nat) (key : String) (p : Nat)
    (pids : List Nat) (σ : CacheState)
    (hc : mapGet σ.cache key = none) (hf : mapGet σ.inFlight key = some p) :
    startMany cfg now key pids σ
      = (σ, pids.map (fun _ => StartResult.joined p), []) := by
  induction pids with
  | nil => rfl
  | cons q qs ih =>
      have hstep : MemoryCache.getOrSetStart cfg now q σ key
          = (σ, StartResult.joined p, []) := by
        simp [MemoryCache.getOrSetStart, MemoryCache.has, hc, hf]
      simp [startMany, hstep, ih]

/-- C3.  N cooperative callers invoking `getOrSet` on the same key during a
single miss: exactly the first caller starts a fetch (so the fetcher is
invoked exactly once), the miss counter grows by exactly one and a single
`onMiss` fires, the entry store is untouched, and every caller ends up
attached to the same promise `p` — so when that promise settles, all N
callers receive the identical outcome. -/
theorem single_flight (cfg : Config) (now : Nat) (key : String) (p : Nat)
    (ps : List Nat) (σ : CacheState)
    (hc : mapGet σ.cache key = none) (hf : mapGet σ.inFlight key = none) :
    (startMany cfg now key (p :: ps) σ).2.1
        = StartResult.started p :: ps.map (fun _ => StartResult.joined p)
  ∧ (startMany cfg now key (p :: ps) σ).2.2
        = [HookEvent.onMiss key MissReason.notFound]
  ∧ (startMany cfg now key (p :: ps) σ).1.misses = σ.misses + 1
  ∧ (startMany cfg now key (p :: ps) σ).1.cache = σ.cache
  ∧ (startMany cfg now key (p :: ps) σ).2.1.countP
        (fun r => match r with | StartResult.started _ => true | _ => false) = 1
  ∧ ∀ r ∈ (startMany cfg now key (p :: ps) σ).2.1,
        r = StartResult.started p ∨ r = StartResult.joined p := by
  have hfresh := getOrSetStart_fresh cfg now p σ key hc hf
  have hjoin := startMany_all_join cfg now key p ps
      { σ with misses := σ.misses + 1, inFlight := mapSet σ.inFlight key p }
      hc (mapGet_mapSet_self σ.inFlight key p)
  have hrun : startMany cfg now key (p :: ps) σ
      = ({ σ with misses := σ.misses + 1, inFlight := mapSet σ.inFlight key p },
         StartResult.started p :: ps.map (fun _ => StartResult.joined p),
         [HookEvent.onMiss key MissReason.notFound]) := by
    simp [startMany, hfresh, hjoin]
  refine ⟨by simp [hrun], by simp [hrun], by simp [hrun], by simp [hrun], ?_, ?_⟩
  · simp [hrun, List.countP_cons]
  · intro r hr
    rw [hrun] at hr
    simp only [List.mem_cons] at hr
    rcases hr with rfl | hr
    · exact Or.inl rfl
    · right
      obtain ⟨_, _, rfl⟩ := List.mem_map.mp hr
      rfl

/-- Witness for `single_flight`: three callers on a fresh cache. -/
theorem single_flight_witness :
    (startMany { maxSize := 100, ttl := 0 } 0 "k" [1, 2, 3] initialState).2.1
      = [StartResult.started 1, StartResult.joined 1, StartResult.joined 1]
  ∧ (startMany { maxSize := 100, ttl := 0 } 0 "k" [1, 2, 3] initialState).1.misses = 0 + 1 :=
  ⟨(single_flight { maxSize := 100, ttl := 0 } 0 "k" 1 [2, 3] initialState
      (by decide) (by decide)).1,
   (single_flight { maxSize := 100, ttl := 0 } 0 "k" 1 [2, 3] initialState
      (by decide) (by decide)).2.2.1⟩

/-- The asynchronous-failure path of `getOrSet` (a fetcher whose
synchronous phase completes and whose promise later rejects): the caller
that started the fetch receives the failure unchanged at settlement, no
entry is stored for the key and no hook fires at settlement, the in-flight
registration is removed, and a subsequent `getOrSet` for the same key
starts a fresh fetch.  (This is the path the repository's own tests
exercise; the synchronously-throwing fetcher behaves differently — see the
C4 theorem below.) -/
theorem fetcher_async_failure_clears_inFlight (cfg : Config) (now now2 pid pid2 e : Nat)
    (σ : CacheState) (key : String)
    (hc : mapGet σ.cache key = none) (hf : mapGet σ.inFlight key = none) :
    (MemoryCache.getOrSetStart cfg now pid σ key).2.1 = StartResult.started pid
  ∧ (MemoryCache.getOrSetSettle cfg now (MemoryCache.getOrSetStart cfg now pid σ key).1 key
        (FetchOutcome.err e)).2.1 = FetchOutcome.err e
  ∧ mapGet (MemoryCache.getOrSetSettle cfg now (MemoryCache.getOrSetStart cfg now pid σ key).1
        key (FetchOutcome.err e)).1.cache key = none
  ∧ (MemoryCache.getOrSetSettle cfg now (MemoryCache.getOrSetStart cfg now pid σ key).1 key
        (FetchOutcome.err e)).2.2 = []
  ∧ mapGet (MemoryCache.getOrSetSettle cfg now (MemoryCache.getOrSetStart cfg now pid σ key).1
        key (FetchOutcome.err e)).1.inFlight key = none
  ∧ (MemoryCache.getOrSetStart cfg now2 pid2
        (MemoryCache.getOrSetSettle cfg now (MemoryCache.getOrSetStart cfg now pid σ key).1 key
          (FetchOutcome.err e)).1 key).2.1 = StartResult.started pid2 := by
  have hfresh := getOrSetStart_fresh cfg now pid σ key hc hf
  rw [hfresh]
  have hsettle : MemoryCache.getOrSetSettle cfg now
      ({ σ with misses := σ.misses + 1, inFlight := mapSet σ.inFlight key pid }) key
      (FetchOutcome.err e)
      = ({ σ with misses := σ.misses + 1, inFlight := mapDelete (mapSet σ.inFlight key pid) key },
         FetchOutcome.err e, []) := by
    simp [MemoryCache.getOrSetSettle]
  rw [hsettle]
  refine ⟨rfl, rfl, hc, rfl, mapGet_mapDelete_self _ _, ?_⟩
  have hfresh2 := getOrSetStart_fresh cfg now2 pid2
      { σ with misses := σ.misses + 1, inFlight := mapDelete (mapSet σ.inFlight key pid) key }
      key hc (mapGet_mapDelete_self _ _)
  rw [hfresh2]

/-- C4.  The claim quantifies over every fetcher, but the fetcher type is
`() => T | Promise<T>`, and for a fetcher that throws synchronously the
claim fails: the async IIFE's `finally \x7b this.inFlight.delete(key) \x7d`
runs during the synchronous throw, before
`this.inFlight.set(key, fetchPromise)` has executed, so the registration is
added after the result has settled and is never removed.  Concretely, on a
fresh cache, `getOrSet("k", () => \x7b throw e \x7d)`: the caller does
receive the failure, nothing is stored and no `onSet` fires — but the
already-rejected promise remains registered under `"k"`, and a second
`getOrSet("k", ...)` joins that stale rejection (receiving the old
failure) instead of invoking its fetcher afresh, recording no miss and
firing no hook.  This contradicts the claim, the spec ("remove the
pending-fetch registration before settling, so a subsequent call starts a
fresh fetch"), and the repository's own tests of the failure path
("should clean up in-flight on error", "Subsequent attempt should start a
new fetch (not join the failed one)", "should not cache errors" — which
pass only because they use `async` fetchers, whose failures settle after
the suspension point). -/
theorem getOrSet_sync_throw_poisons_key :
    (MemoryCache.getOrSetThrow { maxSize := 100, ttl := 0 } 0 1 initialState "k" 7).2.1
      = SyncThrowResult.failed 1 7
  ∧ mapGet (MemoryCache.getOrSetThrow { maxSize := 100, ttl := 0 } 0 1 initialState
        "k" 7).1.cache "k" = none
  ∧ (MemoryCache.getOrSetThrow { maxSize := 100, ttl := 0 } 0 1 initialState "k" 7).2.2
      = [HookEvent.onMiss "k" MissReason.notFound]
  ∧ mapGet (MemoryCache.getOrSetThrow { maxSize := 100, ttl := 0 } 0 1 initialState
        "k" 7).1.inFlight "k" = some 1
  ∧ (MemoryCache.getOrSetStart { maxSize := 100, ttl := 0 } 0 2
        (MemoryCache.getOrSetThrow { maxSize := 100, ttl := 0 } 0 1 initialState "k" 7).1
        "k").2.1 = StartResult.joined 1
  ∧ (MemoryCache.getOrSetStart { maxSize := 100, ttl := 0 } 0 2
        (MemoryCache.getOrSetThrow { maxSize := 100, ttl := 0 } 0 1 initialState "k" 7).1
        "k").1
      = (MemoryCache.getOrSetThrow { maxSize := 100, ttl := 0 } 0 1 initialState "k" 7).1 := by
  decide

/-- A hook configuration modelling the closure
`(ctx) => \x7b cache.delete('victim'); throw new Error('boom') \x7d`
registered for every event type: it raises on every invocation, and before
raising it re-entrantly deletes the key `"victim"` from the store.  (The
re-entrant `delete` finds nothing on its second, nested firing, so no
further hooks run and the net state effect of one invocation is exactly
the removal of `"victim"`.) -/
def mutatingThrowingHooks : Hooks :=
  { onHit := some (fun _ σ => ({ σ with cache := mapDelete σ.cache "victim" }, true)),
    onMiss := some (fun _ σ => ({ σ with cache := mapDelete σ.cache "victim" }, true)),
    onSet := some (fun _ σ => ({ σ with cache := mapDelete σ.cache "victim" }, true)),
    onEvict := some (fun _ σ => ({ σ with cache := mapDelete σ.cache "victim" }, true)),
    onExpire := some (fun _ σ => ({ σ with cache := mapDelete σ.cache "victim" }, true)),
    onDelete := some (fun _ σ => ({ σ with cache := mapDelete σ.cache "victim" }, true)) }

/-- C7 counterexample.  The claim quantifies over every hook that throws on
every invocation and asserts the resulting cache state is unchanged.  A
hook that re-entrantly mutates the cache and then throws is such a hook,
and it does change the resulting state: `get("absent")` with
`mutatingThrowingHooks` ends with the `"victim"` entry deleted by the
`onMiss` hook, while the same operation with no hooks leaves it in place. -/
theorem throwing_hook_changes_state :
    (runOpWithHooks mutatingThrowingHooks { maxSize := 100, ttl := 0 } 0
        { initialState with
            cache := [("victim", { value := Stored.plain (JsVal.str "v"), timestamp := 0 })] }
        (CacheOp.get "absent")).1.cache = []
  ∧ (runOpWithHooks noHooks { maxSize := 100, ttl := 0 } 0
        { initialState with
            cache := [("victim", { value := Stored.plain (JsVal.str "v"), timestamp := 0 })] }
        (CacheOp.get "absent")).1.cache
      = [("victim", { value := Stored.plain (JsVal.str "v"), timestamp := 0 })]
  ∧ runOpWithHooks mutatingThrowingHooks { maxSize := 100, ttl := 0 } 0
        { initialState with
            cache := [("victim", { value := Stored.plain (JsVal.str "v"), timestamp := 0 })] }
        (CacheOp.get "absent")
      ≠ runOpWithHooks noHooks { maxSize := 100, ttl := 0 } 0
        { initialState with
            cache := [("victim", { value := Stored.plain (JsVal.str "v"), timestamp := 0 })] }
        (CacheOp.get "absent") := by
  decide

/-- C7 (amended).  A hook raise never reaches the operation's caller and
never aborts the operation — `callHook`'s catch swallows it and the
operation continues — so for every cache operation, hooks that throw on
every invocation but perform no cache mutation of their own (which is all
a bare `throw` hook does) leave the operation's return value, its
completion, and the resulting cache state exactly as in a run with no
hooks registered.  A throwing hook that additionally mutates the cache
re-entrantly changes the resulting state by exactly its own mutations
(counterexample above). -/
theorem callHook_none (ctx : γ) (σ : CacheState) :
    callHook (none : Option (HookFn γ)) ctx σ = σ := rfl

theorem hook_isolation_pure (h : Hooks) (hp : h.preservesState) (cfg : Config) (now : Nat)
    (σ : CacheState) (op : CacheOp) :
    runOpWithHooks h cfg now σ op = runOpWithHooks noHooks cfg now σ op := by
  obtain ⟨pHit, pMiss, pSet, pEvict, pExpire, pDelete⟩ := hp
  cases op <;>
    simp only [runOpWithHooks, MemoryCache.getWithHooks, MemoryCache.hasWithHooks,
      MemoryCache.setWithHooks, MemoryCache.deleteWithHooks, MemoryCache.deleteAsyncWithHooks,
      MemoryCache.clearWithHooks, MemoryCache.deleteByPrefixWithHooks,
      MemoryCache.deleteByMagicStringWithHooks, MemoryCache.pruneWithHooks,
      MemoryCache.sizeWithHooks, MemoryCache.keysWithHooks, MemoryCache.valuesWithHooks,
      MemoryCache.entriesWithHooks, MemoryCache.getStatsWithHooks,
      MemoryCache.getOrSetStartWithHooks, MemoryCache.getOrSetSettleWithHooks,
      MemoryCache.getOrSetThrowWithHooks,
      pHit, pMiss, pSet, pEvict, pExpire, pDelete, noHooks, callHook_none]

/-- The archetypal always-throwing hook configuration:
`() => \x7b throw new Error() \x7d` for every event type — each raises on
every invocation and touches nothing. -/
def alwaysThrowingHooks : Hooks :=
  { onHit := some (fun _ σ => (σ, true)),
    onMiss := some (fun _ σ => (σ, true)),
    onSet := some (fun _ σ => (σ, true)),
    onEvict := some (fun _ σ => (σ, true)),
    onExpire := some (fun _ σ => (σ, true)),
    onDelete := some (fun _ σ => (σ, true)) }

/-- Witness for `hook_isolation_pure`: the always-throwing hooks on a
concrete `get`. -/
theorem hook_isolation_pure_witness :
    runOpWithHooks alwaysThrowingHooks { maxSize := 100, ttl := 0 } 0 initialState
        (CacheOp.get "k")
      = runOpWithHooks noHooks { maxSize := 100, ttl := 0 } 0 initialState
        (CacheOp.get "k") :=
  hook_isolation_pure alwaysThrowingHooks
    ⟨fun _ _ => rfl, fun _ _ => rfl, fun _ _ => rfl,
     fun _ _ => rfl, fun _ _ => rfl, fun _ _ => rfl⟩
    { maxSize := 100, ttl := 0 } 0 initialState (CacheOp.get "k")

/-- C8.  With a configured `keyGenerator`: (1) if it throws, the error
propagates to the caller, the wrapped method is never invoked, the cache
state is unchanged (so nothing is stored and `onSet` never fires); and
(2) the key derivation ignores `hashKeys` entirely — the call behaves
identically for every value of that flag. -/
theorem cached_keyGenerator_contract (cfg : Config) (kcfg : DecoratorKeyCfg)
    (stringify : List JsVal → String) (propertyKey : String)
    (method : List JsVal → Except Nat JsVal) (now : Nat) (σ : CacheState)
    (args : List JsVal) (kg : List JsVal → Except Nat String)
    (hkg : kcfg.keyGenerator = some kg) :
    (∀ e : Nat, kg args = Except.error e →
        cachedCall cfg kcfg stringify propertyKey method now σ args
          = (Except.error e, σ, false, []))
  ∧ (∀ b : Bool, cachedCall cfg kcfg stringify propertyKey method now σ args
        = cachedCall cfg { kcfg with hashKeys := b } stringify propertyKey method now σ args) := by
  constructor
  · intro e he
    simp [cachedCall, hkg, he]
  · intro b
    simp [cachedCall, hkg]

/-- Witness for `cached_keyGenerator_contract`: a key generator that always
throws error 7; the call propagates it, invokes nothing, stores nothing. -/
theorem cached_keyGenerator_contract_witness :
    cachedCall { maxSize := 100, ttl := 0 }
        { keyGenerator := some (fun _ => Except.error 7), hashKeys := true }
        (fun _ => "s") "m" (fun _ => Except.ok (JsVal.num 1)) 0 initialState []
      = (Except.error 7, initialState, false, []) :=
  (cached_keyGenerator_contract { maxSize := 100, ttl := 0 }
      { keyGenerator := some (fun _ => Except.error 7), hashKeys := true }
      (fun _ => "s") "m" (fun _ => Except.ok (JsVal.num 1)) 0 initialState []
      (fun _ => Except.error 7) rfl).1 7 rfl

end Memcache
